import Mathlib

/-!
# ARI Dashboard — verification of the analytic and presentation core

A shallow embedding of the ARI-Dashboard repository (`src/app.py`)
together with models of the analytic core its specification describes.
Machine floats of the source are embedded as rationals (`ℚ`), pandas
frames as `List`s of record structures, nullable cells as `Option`.

The file is organised as definitions first (embedding of the source and
the spec-modelled analytic functions), then the lemmas and the claim
theorems.
-/

namespace ARIDash

/-! ## Python string primitives

`load_data` (src/app.py lines 29-31) trims text columns with
`str.strip()`, and `safe_txt` (lines 37-42) cleans and truncates a cell
for PDF layout.  Python strings are embedded as `String` / `List Char`.
-/

/-- The whitespace class Python's `str.strip()` removes: space, tab,
newline, carriage return, vertical tab, form feed. -/
def isPyWs (c : Char) : Bool :=
  c == ' ' || c == '\t' || c == '\n' || c == '\r' || c == '\x0b' || c == '\x0c'

/-- `str.strip()` on a character list: drop `isPyWs` characters from the
front, then from the back. -/
def stripChars (l : List Char) : List Char :=
  (l.dropWhile isPyWs).rdropWhile isPyWs

/-- Python `str.strip()` on a `String` (used at src/app.py lines 31, 39
and 143). -/
def pyStrip (s : String) : String :=
  ⟨stripChars s.data⟩

/-- The two character substitutions of `safe_txt` (src/app.py line 39):
`.replace` with a single-character pattern is a per-character map. -/
def replNl (c : Char) : Char := if c = '\n' then ' ' else c

def replCr (c : Char) : Char := if c = '\r' then ' ' else c

/-- `str(x)` of `safe_txt` line 38: `None` becomes the empty string. -/
def optStr : Option String → String
  | none => ""
  | some s => s

/-- The character list `safe_txt` has built just before its truncation
test: `str(x)` (with `None` as `""`), newlines and carriage returns
replaced by spaces, then stripped (src/app.py lines 38-39). -/
def cleanedChars (x : Option String) : List Char :=
  stripChars (((optStr x).data.map replNl).map replCr)

/-- `safe_txt` from src/app.py lines 37-42: anything longer than
`max_len` characters is cut to `max_len` characters plus a trailing
`"..."`. -/
def safe_txt (x : Option String) (max_len : ℕ) : String :=
  if (cleanedChars x).length > max_len then
    ⟨(cleanedChars x).take max_len ++ ['.', '.', '.']⟩
  else ⟨cleanedChars x⟩

/-! ## `load_data` (src/app.py lines 15-33)

A CSV row arrives with every cell as text.  `pd.to_datetime(...,
errors="coerce")` and `pd.to_numeric(..., errors="coerce")` are pandas
library parsers, not code of this repository: they are abstracted as
parameters that return `none` (pandas `NaT`/`NaN`) on unparseable input
instead of raising.  A concrete executable decimal parser is provided
below for witnesses. -/

structure RawRow where
  state : String
  district : String
  Risk : String
  MonthName : String
  MonthDate : String
  ARI : String
  BUR : String
  BUD : String
  AWF : String
  MAF_raw : String
deriving DecidableEq

structure LoadedRow where
  state : String
  district : String
  Risk : String
  MonthName : String
  MonthDate : Option ℤ
  ARI : Option ℚ
  BUR : Option ℚ
  BUD : Option ℚ
  AWF : Option ℚ
  MAF_raw : Option ℚ
deriving DecidableEq

/-- One row of `load_data`: the date column through the date parser, the
five metric columns through the numeric parser, the four text columns
`.astype(str).str.strip()`-ed (src/app.py lines 19-31). -/
def loadRow (parseDate : String → Option ℤ) (parseNum : String → Option ℚ)
    (r : RawRow) : LoadedRow where
  state := pyStrip r.state
  district := pyStrip r.district
  Risk := pyStrip r.Risk
  MonthName := pyStrip r.MonthName
  MonthDate := parseDate r.MonthDate
  ARI := parseNum r.ARI
  BUR := parseNum r.BUR
  BUD := parseNum r.BUD
  AWF := parseNum r.AWF
  MAF_raw := parseNum r.MAF_raw

/-- `load_data` applied to a table: one coerced row per input row. -/
def load_data (parseDate : String → Option ℤ) (parseNum : String → Option ℚ)
    (rows : List RawRow) : List LoadedRow :=
  rows.map (loadRow parseDate parseNum)

/-- Digit-string accumulator for the concrete stand-in numeric parser. -/
def parseDigitsAux : List Char → ℕ → Option ℕ
  | [], acc => some acc
  | c :: cs, acc =>
    if c.isDigit then parseDigitsAux cs (acc * 10 + (c.toNat - 48)) else none

def parseDigits : List Char → Option ℕ
  | [] => none
  | l => parseDigitsAux l 0

/-- Unsigned decimal: digits, optionally a point and fraction digits. -/
def parseUnsigned (l : List Char) : Option ℚ :=
  match l.splitOn '.' with
  | [ds] => (parseDigits ds).map (fun n => (n : ℚ))
  | [ds, fs] =>
    match parseDigits ds, parseDigits fs with
    | some n, some f => some ((n : ℚ) + (f : ℚ) / (10 : ℚ) ^ fs.length)
    | _, _ => none
  | _ => none

/-- A concrete executable numeric coercion standing in for the pandas
one in witnesses: optional minus sign, then an unsigned decimal;
anything else coerces to `none`. -/
def parseNumQ (s : String) : Option ℚ :=
  match s.data with
  | '-' :: rest => (parseUnsigned rest).map (fun q => -q)
  | l => parseUnsigned l

/-- No leading and no trailing strip-whitespace. -/
def trimmed (s : String) : Prop :=
  (∀ c, s.data.head? = some c → isPyWs c = false) ∧
  (∀ c, s.data.getLast? = some c → isPyWs c = false)

/-! ## The dashboard frame, filters and summaries (src/app.py 117-334)

After loading, every page works on rows whose metric cells are present;
a dashboard row carries the columns the pages read. -/

structure DRec where
  state : String
  district : String
  Risk : String
  MonthName : String
  ARI : ℚ
  BUR : ℚ
  BUD : ℚ
  AWF : ℚ
  MAF_raw : ℚ
deriving DecidableEq

/-- Is `pat` an infix of `hay` (character lists)? -/
def isInfixOfChars (pat : List Char) : List Char → Bool
  | [] => pat.isEmpty
  | c :: rest => pat.isPrefixOf (c :: rest) || isInfixOfChars pat rest

/-- The district-search test of src/app.py line 144,
`str.contains(search, case=False, na=False)`, modelled as a
case-insensitive substring test (the pandas call reads the query as a
regular expression; the claims proved here do not depend on the match
predicate). -/
def containsCI (hay pat : String) : Bool :=
  isInfixOfChars pat.toLower.data hay.toLower.data

/-- The sidebar filter selections (src/app.py lines 126-129). -/
structure Filters where
  month : String
  state : String
  risk : String
  search : String

/-- One guarded filter step: pandas boolean-mask selection applied only
when the sidebar selection is active. -/
def condFilter (b : Bool) (p : DRec → Bool) (l : List DRec) : List DRec :=
  if b then l.filter p else l

/-- The filter pipeline of src/app.py lines 131-144, in source order:
month, state, risk, then district search. -/
def applyFilters (f : Filters) (df : List DRec) : List DRec :=
  condFilter (pyStrip f.search != "") (fun r => containsCI r.district f.search)
    (condFilter (f.risk != "All") (fun r => r.Risk == f.risk)
      (condFilter (f.state != "All") (fun r => r.state == f.state)
        (condFilter (f.month != "All") (fun r => r.MonthName == f.month) df)))

/-- Ascending-ARI row order, the key of every
`sort_values("ARI", ascending=True)` in the pages. -/
def ariLE (a b : DRec) : Prop := a.ARI ≤ b.ARI

instance : DecidableRel ariLE := fun a b =>
  inferInstanceAs (Decidable (a.ARI ≤ b.ARI))

instance : IsTotal DRec ariLE := ⟨fun a b => le_total a.ARI b.ARI⟩

instance : IsTrans DRec ariLE := ⟨fun _ _ _ h1 h2 => le_trans h1 h2⟩

def ariGE (a b : DRec) : Prop := b.ARI ≤ a.ARI

instance : DecidableRel ariGE := fun a b =>
  inferInstanceAs (Decidable (b.ARI ≤ a.ARI))

/-- `df.sort_values("ARI", ascending=True)`: the rows sorted by
ascending ARI. -/
def sortByARI (df : List DRec) : List DRec := List.insertionSort ariLE df

/-- `df.sort_values("ARI", ascending=False)` (src/app.py line 204). -/
def sortByARIDesc (df : List DRec) : List DRec := List.insertionSort ariGE df

/-- The five sidebar pages (src/app.py lines 147-153). -/
inductive Page
  | home
  | overview
  | ranking
  | explain
  | planner

/-- The data rows each page renders out of the filtered frame: Home its
worst and best row (lines 203-204), Page 1 the 20 lowest-ARI rows (line
231), Page 2 the 10 lowest plus the full ranking (lines 246, 263), Page
3 the scatter frame plus the 50 lowest (lines 286-307), Page 4 the
ranked plan table (line 331). -/
def pageRows : Page → List DRec → List DRec
  | .home, d => (sortByARI d).take 1 ++ (sortByARIDesc d).take 1
  | .overview, d => (sortByARI d).take 20
  | .ranking, d => (sortByARI d).take 10 ++ sortByARI d
  | .explain, d => d ++ (sortByARI d).take 50
  | .planner, d => sortByARI d

/-- `(df["Risk"] == cat).sum()`. -/
def countRisk (cat : String) (d : List DRec) : ℕ :=
  (d.filter (fun r => r.Risk == cat)).length

/-- The mean of the ARI column. -/
def meanARI (d : List DRec) : ℚ := (d.map (fun r => r.ARI)).sum / d.length

/-- The four KPI numbers `show_kpis` renders (src/app.py lines 169-175):
mean ARI, protected to `0.0` on an empty frame, and the three Risk
counts. -/
def show_kpis (d : List DRec) : ℚ × ℕ × ℕ × ℕ :=
  (if d.length > 0 then meanARI d else 0,
    countRisk "High" d, countRisk "Medium" d, countRisk "Low" d)

/-- The summary block of `create_pdf_report` (src/app.py lines 63-69):
average and counts when rows exist, the `0.0, 0, 0, 0` defaults
otherwise. -/
def pdfSummary (d : List DRec) : ℚ × ℕ × ℕ × ℕ :=
  if d.length > 0 then
    (meanARI d, countRisk "High" d, countRisk "Medium" d, countRisk "Low" d)
  else (0, 0, 0, 0)

/-- The district list of the PDF report (src/app.py lines 93-94):
`sort_values("ARI", ascending=True).head(20)`. -/
def pdfTop20 (d : List DRec) : List DRec := (sortByARI d).take 20

/-- A small concrete frame for evaluating the dashboard functions. -/
def demoD : List DRec :=
  [⟨"A", "D1", "High", "Jan", 1, 2, 3, 4, 5⟩,
    ⟨"B", "D2", "Low", "Feb", 2, 3, 4, 5, 6⟩,
    ⟨"A", "D3", "Medium", "Jan", 3, 4, 5, 6, 7⟩]

/-! ## The analytic core modelled from the spec

The specification (§2, §4) describes a Normalizer, PriorityScorer,
TemporalDiffEngine, EarlyWarningDetector, RiskTransitionDetector and
Forecaster.  None of these functions is among the repository files
available under src/ (src/app.py holds only loading, filtering and
presentation), so they are modelled from the specification's words and
every claim about them is settled against the model. -/

/-- The least column value over a subset: `0` on the empty subset,
otherwise the fold of `min` over the rows. -/
def colMin (f : DRec → ℚ) : List DRec → ℚ
  | [] => 0
  | r :: rs => (rs.map f).foldr min (f r)

/-- The greatest column value over a subset. -/
def colMax (f : DRec → ℚ) : List DRec → ℚ
  | [] => 0
  | r :: rs => (rs.map f).foldr max (f r)

/-- Modelled from the spec: §4.1 Normalizer, absent from src/ —
`(x − min)/(max − min)` for a higher-is-worse column, with min and max
taken over the scoring subset. -/
def normHigherWorse (f : DRec → ℚ) (df : List DRec) (r : DRec) : ℚ :=
  (f r - colMin f df) / (colMax f df - colMin f df)

/-- Modelled from the spec: §4.1 Normalizer, absent from src/ — the
complement `1 − (x − min)/(max − min)` for a lower-is-worse column. -/
def normLowerWorse (f : DRec → ℚ) (df : List DRec) (r : DRec) : ℚ :=
  1 - normHigherWorse f df r

/-- Modelled from the spec: §4.2 PriorityScorer, absent from src/ — the
fixed convex combination 0.40·(ARI deficit) + 0.25·(BUR staleness) +
0.20·(BUD sparsity) + 0.15·(AWF load) of the four normalized drivers. -/
def priorityScore (df : List DRec) (r : DRec) : ℚ :=
  (40 / 100) * normLowerWorse (fun x => x.ARI) df r
    + (25 / 100) * normHigherWorse (fun x => x.BUR) df r
    + (20 / 100) * normLowerWorse (fun x => x.BUD) df r
    + (15 / 100) * normHigherWorse (fun x => x.AWF) df r

/-- A scored output row: the row, its Priority_Score, and its position
in the input (used to state tie stability). -/
structure ScoredRow where
  idx : ℕ
  score : ℚ
  row : DRec
deriving DecidableEq

/-- Score every row of the subset, keeping input positions from `n`. -/
def scoreRowsFrom (df : List DRec) (n : ℕ) : List DRec → List ScoredRow
  | [] => []
  | r :: rs => ⟨n, priorityScore df r, r⟩ :: scoreRowsFrom df (n + 1) rs

def scoreRows (df : List DRec) : List ScoredRow := scoreRowsFrom df 0 df

/-- Modelled from the spec: §4.2's output order, absent from src/ —
descending score with ties kept in original relative order, i.e. the
linear order "higher score first, equal scores by input position". -/
def scoreOrder (a b : ScoredRow) : Prop :=
  b.score < a.score ∨ (a.score = b.score ∧ a.idx ≤ b.idx)

instance : DecidableRel scoreOrder := fun a b =>
  inferInstanceAs (Decidable (b.score < a.score ∨ (a.score = b.score ∧ a.idx ≤ b.idx)))

instance : IsTotal ScoredRow scoreOrder := by
  constructor
  intro a b
  rcases lt_trichotomy a.score b.score with h | h | h
  · exact Or.inr (Or.inl h)
  · rcases le_total a.idx b.idx with hi | hi
    · exact Or.inl (Or.inr ⟨h, hi⟩)
    · exact Or.inr (Or.inr ⟨h.symm, hi⟩)
  · exact Or.inl (Or.inl h)

instance : IsTrans ScoredRow scoreOrder := by
  constructor
  intro a b c hab hbc
  rcases hab with h1 | ⟨h1, i1⟩
  · rcases hbc with h2 | ⟨h2, _⟩
    · exact Or.inl (h2.trans h1)
    · exact Or.inl (h2 ▸ h1)
  · rcases hbc with h2 | ⟨h2, i2⟩
    · exact Or.inl (by rw [h1]; exact h2)
    · exact Or.inr ⟨h1.trans h2, i1.trans i2⟩

/-- Modelled from the spec: `computePriorityScore` (§4.2, §6), absent
from src/ — score every row of the subset and emit them sorted by
descending score, ties stable. -/
def computePriorityScore (df : List DRec) : List ScoredRow :=
  List.insertionSort scoreOrder (scoreRows df)

/-! ### TemporalDiffEngine and its three consumers (spec §4.3-§4.6) -/

/-- One district-month record as the temporal engine reads it. -/
structure TRec where
  state : String
  district : String
  monthDate : ℤ
  ARI : ℚ
  Risk : String
deriving DecidableEq

/-- The grouping key of spec §3: (state, district). -/
def entityKey (r : TRec) : String × String := (r.state, r.district)

/-- Chronological order on records. -/
def dateLE (a b : TRec) : Prop := a.monthDate ≤ b.monthDate

instance : DecidableRel dateLE := fun a b =>
  inferInstanceAs (Decidable (a.monthDate ≤ b.monthDate))

instance : IsTotal TRec dateLE := ⟨fun a b => le_total a.monthDate b.monthDate⟩

instance : IsTrans TRec dateLE := ⟨fun _ _ _ h1 h2 => le_trans h1 h2⟩

/-- Modelled from the spec: §4.3's grouping, absent from src/ — the
records of one (state, district) entity, sorted by MonthDate
ascending. -/
def timeline (rs : List TRec) (k : String × String) : List TRec :=
  List.insertionSort dateLE (rs.filter (fun r => decide (entityKey r = k)))

/-- Key deduplication for the group-by. -/
def dedupKeys : List (String × String) → List (String × String)
  | [] => []
  | k :: ks => if k ∈ ks then dedupKeys ks else k :: dedupKeys ks

/-- The entity keys present in a table. -/
def groupKeys (rs : List TRec) : List (String × String) :=
  dedupKeys (rs.map entityKey)

/-- Concatenate a per-group computation over a key list. -/
def overKeys {β : Type} (g : String × String → List β) : List (String × String) → List β
  | [] => []
  | k :: ks => g k ++ overKeys g ks

/-- A record annotated with the previous value of a field within its
timeline (`none` on the first record: spec §4.3, §7 NullPrevious). -/
structure TD (α : Type) where
  cur : TRec
  prev : Option α
deriving DecidableEq

/-- Walk a timeline carrying the previous field value. -/
def withPrevFrom {α : Type} (f : TRec → α) : Option α → List TRec → List (TD α)
  | _, [] => []
  | p, r :: rest => ⟨r, p⟩ :: withPrevFrom f (some (f r)) rest

def withPrev {α : Type} (f : TRec → α) (tl : List TRec) : List (TD α) :=
  withPrevFrom f none tl

/-- A temporal-diff output row (spec §6: `prev`, `delta`,
`pctChange`). -/
structure TDRow where
  cur : TRec
  prev : Option ℚ
  delta : Option ℚ
  pctChange : Option ℚ
deriving DecidableEq

/-- Modelled from the spec: §4.3's per-record numbers, absent from
src/ — absolute difference `current − previous` and percent change
`(current − previous)/previous`, each `none` without a previous value,
and percent change `none` (the division-by-zero sentinel of §7) when
the previous value is 0. -/
def mkTDRow (f : TRec → ℚ) (x : TD ℚ) : TDRow :=
  ⟨x.cur, x.prev, x.prev.map (fun p => f x.cur - p),
    x.prev.bind (fun p => if p = 0 then none else some ((f x.cur - p) / p))⟩

def tdTimeline (f : TRec → ℚ) (tl : List TRec) : List TDRow :=
  (withPrev f tl).map (mkTDRow f)

/-- Modelled from the spec: `computeTemporalDiff` (§4.3, §6), absent
from src/ — group by entity, sort each group chronologically, annotate
every record. -/
def computeTemporalDiff (rs : List TRec) (f : TRec → ℚ) : List TDRow :=
  overKeys (fun k => tdTimeline f (timeline rs k)) (groupKeys rs)

/-- Modelled from the spec: §4.4's flag, absent from src/ — flagged iff
the ARI percent change is defined and strictly below −0.15. -/
def ewFlag (row : TDRow) : Bool :=
  match row.pctChange with
  | some p => decide (p < -(15 / 100 : ℚ))
  | none => false

def ewTimeline (rs : List TRec) (k : String × String) : List (TDRow × Bool) :=
  (tdTimeline (fun r => r.ARI) (timeline rs k)).map (fun row => (row, ewFlag row))

/-- Modelled from the spec: `detectEarlyWarning` (§4.4, §6), absent
from src/. -/
def detectEarlyWarning (rs : List TRec) : List (TDRow × Bool) :=
  overKeys (ewTimeline rs) (groupKeys rs)

/-- Modelled from the spec: §4.5's flag, absent from src/ — flagged iff
the previous category is exactly "Medium" and the current exactly
"High". -/
def rtFlag (x : TD String) : Bool :=
  match x.prev with
  | some p => p == "Medium" && x.cur.Risk == "High"
  | none => false

def rtTimeline (rs : List TRec) (k : String × String) : List (TD String × Bool) :=
  (withPrev (fun r => r.Risk) (timeline rs k)).map (fun x => (x, rtFlag x))

/-- Modelled from the spec: `detectRiskTransition` (§4.5, §6), absent
from src/. -/
def detectRiskTransition (rs : List TRec) : List (TD String × Bool) :=
  overKeys (rtTimeline rs) (groupKeys rs)

/-- Modelled from the spec: §4.6's trend, absent from src/ — `current −
previous`, and 0 (not null) on the first record of a timeline. -/
def fcTrend (row : TDRow) : ℚ :=
  match row.prev with
  | some p => row.cur.ARI - p
  | none => 0

/-- A forecast output row: the annotated record, its trend and
`Forecast_ARI_Next = current + trend`. -/
structure FRow where
  row : TDRow
  trend : ℚ
  forecast : ℚ
deriving DecidableEq

def fcTimeline (rs : List TRec) (k : String × String) : List FRow :=
  (tdTimeline (fun r => r.ARI) (timeline rs k)).map
    (fun row => ⟨row, fcTrend row, row.cur.ARI + fcTrend row⟩)

/-- Modelled from the spec: `forecastNext` (§4.6, §6), absent from
src/ — one-step extrapolation from the last observed delta. -/
def forecastNext (rs : List TRec) : List FRow :=
  overKeys (fcTimeline rs) (groupKeys rs)

/-- The two-record single-entity timeline of spec §8 with
ARI = [50, 40]. -/
def fcDemo : List TRec :=
  [⟨"S", "D", 1, 50, "Low"⟩, ⟨"S", "D", 2, 40, "Low"⟩]

/-- The three-month single-entity timeline of spec §8 with
ARI = [100, 100, 60]. -/
def ewDemo : List TRec :=
  [⟨"S", "D", 1, 100, "Low"⟩, ⟨"S", "D", 2, 100, "Low"⟩,
    ⟨"S", "D", 3, 60, "Low"⟩]

/-! ## Lemmas: the string primitives -/

theorem stripChars_sublist (l : List Char) : (stripChars l).Sublist l :=
  ((List.rdropWhile_prefix isPyWs _).sublist).trans (List.dropWhile_sublist isPyWs)

theorem stripChars_head?_not (l : List Char) :
    ∀ c, (stripChars l).head? = some c → isPyWs c = false := by
  intro c hc
  obtain ⟨ys, hys⟩ := List.head?_eq_some_iff.mp hc
  obtain ⟨t, ht⟩ := List.rdropWhile_prefix isPyWs (l.dropWhile isPyWs)
  have hd : l.dropWhile isPyWs = c :: (ys ++ t) := by
    rw [← ht]
    show stripChars l ++ t = _
    rw [hys]
    simp
  have hm : l.dropWhile isPyWs ≠ [] := by rw [hd]; simp
  have h2 := List.head_dropWhile_not isPyWs l hm
  simp only [hd, List.head_cons] at h2
  exact h2

theorem stripChars_getLast?_not (l : List Char) :
    ∀ c, (stripChars l).getLast? = some c → isPyWs c = false := by
  intro c hc
  have hne : stripChars l ≠ [] := by
    intro h0
    rw [h0] at hc
    simp at hc
  have h2 : ¬ isPyWs ((stripChars l).getLast hne) = true :=
    List.rdropWhile_last_not isPyWs (l.dropWhile isPyWs) hne
  have h3 : (stripChars l).getLast hne = c := by
    have h4 := List.getLast?_eq_getLast (stripChars l) hne
    rw [hc] at h4
    exact (Option.some_inj.mp h4).symm
  rw [h3] at h2
  simpa using h2

theorem pyStrip_trimmed (s : String) : trimmed (pyStrip s) :=
  ⟨stripChars_head?_not s.data, stripChars_getLast?_not s.data⟩

theorem nl_not_mem_safe_txt (x : Option String) (max_len : ℕ) :
    '\n' ∉ (safe_txt x max_len).data := by
  intro hmem
  have hclean : '\n' ∈ cleanedChars x := by
    unfold safe_txt at hmem
    by_cases hlen : (cleanedChars x).length > max_len
    · rw [if_pos hlen] at hmem
      rcases List.mem_append.mp hmem with h | h
      · exact (List.take_sublist _ _).mem h
      · exact absurd h (by decide)
    · rw [if_neg hlen] at hmem
      exact hmem
  have hmap : '\n' ∈ ((optStr x).data.map replNl).map replCr :=
    (stripChars_sublist _).mem hclean
  obtain ⟨b, hb, hbeq⟩ := List.mem_map.mp hmap
  have hbnl : b = '\n' := by
    unfold replCr at hbeq
    by_cases h : b = '\r'
    · rw [if_pos h] at hbeq; exact absurd hbeq (by decide)
    · rwa [if_neg h] at hbeq
  obtain ⟨a, _, haeq⟩ := List.mem_map.mp hb
  rw [hbnl] at haeq
  unfold replNl at haeq
  by_cases h : a = '\n'
  · rw [if_pos h] at haeq; exact absurd haeq (by decide)
  · rw [if_neg h] at haeq; exact h haeq

theorem cr_not_mem_safe_txt (x : Option String) (max_len : ℕ) :
    '\r' ∉ (safe_txt x max_len).data := by
  intro hmem
  have hclean : '\r' ∈ cleanedChars x := by
    unfold safe_txt at hmem
    by_cases hlen : (cleanedChars x).length > max_len
    · rw [if_pos hlen] at hmem
      rcases List.mem_append.mp hmem with h | h
      · exact (List.take_sublist _ _).mem h
      · exact absurd h (by decide)
    · rw [if_neg hlen] at hmem
      exact hmem
  have hmap : '\r' ∈ ((optStr x).data.map replNl).map replCr :=
    (stripChars_sublist _).mem hclean
  obtain ⟨b, _, hbeq⟩ := List.mem_map.mp hmap
  unfold replCr at hbeq
  by_cases h : b = '\r'
  · rw [if_pos h] at hbeq; exact absurd hbeq (by decide)
  · rw [if_neg h] at hbeq; exact h hbeq

theorem safe_txt_length_le (x : Option String) (max_len : ℕ) :
    (safe_txt x max_len).length ≤ max_len + 3 := by
  unfold safe_txt
  by_cases hlen : (cleanedChars x).length > max_len
  · rw [if_pos hlen]
    show ((cleanedChars x).take max_len ++ ['.', '.', '.']).length ≤ max_len + 3
    rw [List.length_append, List.length_take]
    simp only [List.length_cons, List.length_nil]
    omega
  · rw [if_neg hlen]
    show (cleanedChars x).length ≤ max_len + 3
    omega

theorem safe_txt_none (max_len : ℕ) : safe_txt none max_len = "" := by
  have h : cleanedChars none = [] := rfl
  unfold safe_txt
  rw [h]
  simp

/-! ## Claim theorems: C9 and C6 -/

/-- C9: for every input value `x` and every `max_len`, `safe_txt`
returns a string containing no newline and no carriage-return character
whose length is at most `max_len + 3`; a `None` input yields the empty
string. -/
theorem C9_safe_txt_clean_and_bounded (x : Option String) (max_len : ℕ) :
    ('\n' ∉ (safe_txt x max_len).data ∧ '\r' ∉ (safe_txt x max_len).data) ∧
      (safe_txt x max_len).length ≤ max_len + 3 ∧
      safe_txt none max_len = "" :=
  ⟨⟨nl_not_mem_safe_txt x max_len, cr_not_mem_safe_txt x max_len⟩,
    safe_txt_length_le x max_len, safe_txt_none max_len⟩

/-- C6: for every input row, loading coerces an unparseable MonthDate to
null, coerces an unparseable ARI/BUR/BUD/AWF/MAF_raw cell to null
instead of failing, and leaves the four text fields with no leading or
trailing whitespace; `load_data` maps every row this way. -/
theorem C6_load_data_coercion (parseDate : String → Option ℤ)
    (parseNum : String → Option ℚ) (rows : List RawRow) (r : RawRow) :
    ((parseDate r.MonthDate = none → (loadRow parseDate parseNum r).MonthDate = none) ∧
      (parseNum r.ARI = none → (loadRow parseDate parseNum r).ARI = none) ∧
      (parseNum r.BUR = none → (loadRow parseDate parseNum r).BUR = none) ∧
      (parseNum r.BUD = none → (loadRow parseDate parseNum r).BUD = none) ∧
      (parseNum r.AWF = none → (loadRow parseDate parseNum r).AWF = none) ∧
      (parseNum r.MAF_raw = none → (loadRow parseDate parseNum r).MAF_raw = none)) ∧
    (trimmed (loadRow parseDate parseNum r).state ∧
      trimmed (loadRow parseDate parseNum r).district ∧
      trimmed (loadRow parseDate parseNum r).Risk ∧
      trimmed (loadRow parseDate parseNum r).MonthName) ∧
    (r ∈ rows → loadRow parseDate parseNum r ∈ load_data parseDate parseNum rows) := by
  refine ⟨⟨fun h => h, fun h => h, fun h => h, fun h => h, fun h => h, fun h => h⟩,
    ⟨pyStrip_trimmed _, pyStrip_trimmed _, pyStrip_trimmed _, pyStrip_trimmed _⟩,
    fun hr => List.mem_map_of_mem _ hr⟩

/-! ## Lemmas: filters, sorts and pages -/

theorem condFilter_sublist (b : Bool) (p : DRec → Bool) (l : List DRec) :
    (condFilter b p l).Sublist l := by
  unfold condFilter
  split
  · exact List.filter_sublist l
  · exact List.Sublist.refl l

theorem applyFilters_sublist (f : Filters) (df : List DRec) :
    (applyFilters f df).Sublist df :=
  (condFilter_sublist _ _ _).trans
    ((condFilter_sublist _ _ _).trans
      ((condFilter_sublist _ _ _).trans (condFilter_sublist _ _ _)))

theorem sortByARI_perm (d : List DRec) : (sortByARI d).Perm d :=
  List.perm_insertionSort ariLE d

theorem sortByARIDesc_perm (d : List DRec) : (sortByARIDesc d).Perm d :=
  List.perm_insertionSort ariGE d

theorem sortByARI_sorted (d : List DRec) : List.Pairwise ariLE (sortByARI d) :=
  List.sorted_insertionSort ariLE d

theorem mem_pageRows {p : Page} {d : List DRec} {r : DRec}
    (hr : r ∈ pageRows p d) : r ∈ d := by
  cases p with
  | home =>
    rcases List.mem_append.mp hr with h | h
    · exact (sortByARI_perm d).mem_iff.mp ((List.take_sublist _ _).mem h)
    · exact (sortByARIDesc_perm d).mem_iff.mp ((List.take_sublist _ _).mem h)
  | overview =>
    exact (sortByARI_perm d).mem_iff.mp ((List.take_sublist _ _).mem hr)
  | ranking =>
    rcases List.mem_append.mp hr with h | h
    · exact (sortByARI_perm d).mem_iff.mp ((List.take_sublist _ _).mem h)
    · exact (sortByARI_perm d).mem_iff.mp h
  | explain =>
    rcases List.mem_append.mp hr with h | h
    · exact h
    · exact (sortByARI_perm d).mem_iff.mp ((List.take_sublist _ _).mem h)
  | planner =>
    exact (sortByARI_perm d).mem_iff.mp hr

/-! ## Claim theorems: C7, C8 and C10 -/

/-- C7: applying the sidebar filters and rendering any page only
selects rows — the filtered frame is a sub-sequence of the loaded
frame, every filtered row is (field for field) a row of the loaded
frame, and every row any page displays is a row of the loaded frame;
the loaded frame itself is never altered. -/
theorem C7_filters_and_pages_preserve_rows (df : List DRec) (f : Filters) (p : Page) :
    (applyFilters f df).Sublist df ∧
      (∀ r ∈ applyFilters f df, r ∈ df) ∧
      (∀ r ∈ pageRows p (applyFilters f df), r ∈ df) := by
  refine ⟨applyFilters_sublist f df, fun r hr => (applyFilters_sublist f df).mem hr, ?_⟩
  intro r hr
  exact (applyFilters_sublist f df).mem (mem_pageRows hr)

/-- C8: on an empty row subset both summary computations return the
defined defaults — average ARI 0.0 and zero High/Medium/Low counts —
instead of failing. -/
theorem C8_empty_summary_defaults :
    show_kpis [] = (0, 0, 0, 0) ∧ pdfSummary [] = (0, 0, 0, 0) :=
  ⟨rfl, rfl⟩

/-- C10: for a non-empty report frame the PDF district list holds
exactly `min 20 n` rows, sorted by ascending ARI, and no row outside
the list has a smaller ARI than a listed row (the sort being a
permutation of the frame). -/
theorem C10_pdf_top20_lowest (d : List DRec) (hd : d ≠ []) :
    (pdfTop20 d).length = min 20 d.length ∧
      List.Pairwise ariLE (pdfTop20 d) ∧
      (∀ x ∈ pdfTop20 d, ∀ y ∈ (sortByARI d).drop 20, x.ARI ≤ y.ARI) ∧
      (sortByARI d).Perm d := by
  have hperm := sortByARI_perm d
  have hsorted := sortByARI_sorted d
  refine ⟨?_, ?_, ?_, hperm⟩
  · show ((sortByARI d).take 20).length = min 20 d.length
    rw [List.length_take, hperm.length_eq]
  · exact List.Pairwise.sublist (List.take_sublist _ _) hsorted
  · intro x hx y hy
    have h2 : List.Pairwise ariLE ((sortByARI d).take 20 ++ (sortByARI d).drop 20) := by
      rw [List.take_append_drop]
      exact hsorted
    exact (List.pairwise_append.mp h2).2.2 x hx y hy

/-- Witness for C10 at the concrete three-row frame `demoD`. -/
theorem C10_pdf_top20_lowest_witness :
    (pdfTop20 demoD).length = min 20 demoD.length ∧
      List.Pairwise ariLE (pdfTop20 demoD) ∧
      (∀ x ∈ pdfTop20 demoD, ∀ y ∈ (sortByARI demoD).drop 20, x.ARI ≤ y.ARI) ∧
      (sortByARI demoD).Perm demoD :=
  C10_pdf_top20_lowest demoD (List.cons_ne_nil _ _)

/-! ## Lemmas: normalization and the priority scorer -/

theorem foldr_min_le_init (l : List ℚ) (x : ℚ) : l.foldr min x ≤ x := by
  induction l with
  | nil => exact le_refl x
  | cons a t ih => exact (min_le_right a _).trans ih

theorem foldr_min_le_mem {l : List ℚ} (x : ℚ) {y : ℚ} (hy : y ∈ l) :
    l.foldr min x ≤ y := by
  induction l with
  | nil => cases hy
  | cons a t ih =>
    rcases List.mem_cons.mp hy with h | h
    · subst h; exact min_le_left _ _
    · exact (min_le_right a _).trans (ih h)

theorem init_le_foldr_max (l : List ℚ) (x : ℚ) : x ≤ l.foldr max x := by
  induction l with
  | nil => exact le_refl x
  | cons a t ih => exact ih.trans (le_max_right a _)

theorem mem_le_foldr_max {l : List ℚ} (x : ℚ) {y : ℚ} (hy : y ∈ l) :
    y ≤ l.foldr max x := by
  induction l with
  | nil => cases hy
  | cons a t ih =>
    rcases List.mem_cons.mp hy with h | h
    · subst h; exact le_max_left _ _
    · exact (ih h).trans (le_max_right a _)

theorem colMin_le {f : DRec → ℚ} {df : List DRec} {r : DRec} (hr : r ∈ df) :
    colMin f df ≤ f r := by
  cases df with
  | nil => cases hr
  | cons a t =>
    rcases List.mem_cons.mp hr with h | h
    · subst h; exact foldr_min_le_init _ _
    · exact foldr_min_le_mem _ (List.mem_map_of_mem f h)

theorem le_colMax {f : DRec → ℚ} {df : List DRec} {r : DRec} (hr : r ∈ df) :
    f r ≤ colMax f df := by
  cases df with
  | nil => cases hr
  | cons a t =>
    rcases List.mem_cons.mp hr with h | h
    · subst h; exact init_le_foldr_max _ _
    · exact mem_le_foldr_max _ (List.mem_map_of_mem f h)

theorem normHigherWorse_bounds {f : DRec → ℚ} {df : List DRec} {r : DRec}
    (hr : r ∈ df) (hrange : colMin f df < colMax f df) :
    0 ≤ normHigherWorse f df r ∧ normHigherWorse f df r ≤ 1 := by
  have h1 : colMin f df ≤ f r := colMin_le hr
  have h2 : f r ≤ colMax f df := le_colMax hr
  have hpos : (0 : ℚ) < colMax f df - colMin f df := by linarith
  unfold normHigherWorse
  constructor
  · apply div_nonneg <;> linarith
  · rw [div_le_one hpos]
    linarith

theorem normLowerWorse_bounds {f : DRec → ℚ} {df : List DRec} {r : DRec}
    (hr : r ∈ df) (hrange : colMin f df < colMax f df) :
    0 ≤ normLowerWorse f df r ∧ normLowerWorse f df r ≤ 1 := by
  obtain ⟨h1, h2⟩ := normHigherWorse_bounds hr hrange
  unfold normLowerWorse
  constructor <;> linarith

theorem priorityScore_mem_unit {df : List DRec} {r : DRec} (hr : r ∈ df)
    (hARI : colMin (fun x => x.ARI) df < colMax (fun x => x.ARI) df)
    (hBUR : colMin (fun x => x.BUR) df < colMax (fun x => x.BUR) df)
    (hBUD : colMin (fun x => x.BUD) df < colMax (fun x => x.BUD) df)
    (hAWF : colMin (fun x => x.AWF) df < colMax (fun x => x.AWF) df) :
    0 ≤ priorityScore df r ∧ priorityScore df r ≤ 1 := by
  obtain ⟨a1, a2⟩ := normLowerWorse_bounds hr hARI
  obtain ⟨b1, b2⟩ := normHigherWorse_bounds hr hBUR
  obtain ⟨c1, c2⟩ := normLowerWorse_bounds hr hBUD
  obtain ⟨d1, d2⟩ := normHigherWorse_bounds hr hAWF
  unfold priorityScore
  constructor <;> linarith

theorem scoreRowsFrom_spec (df : List DRec) :
    ∀ (l : List DRec) (n : ℕ) (q : ScoredRow), q ∈ scoreRowsFrom df n l →
      q.score = priorityScore df q.row ∧ q.row ∈ l := by
  intro l
  induction l with
  | nil => intro n q hq; cases hq
  | cons a t ih =>
    intro n q hq
    rcases List.mem_cons.mp hq with h | h
    · subst h; exact ⟨rfl, List.mem_cons_self a t⟩
    · obtain ⟨hs, hm⟩ := ih (n + 1) q h
      exact ⟨hs, List.mem_cons_of_mem a hm⟩

theorem scoreRowsFrom_map_row (df : List DRec) :
    ∀ (l : List DRec) (n : ℕ), (scoreRowsFrom df n l).map (fun q => q.row) = l := by
  intro l
  induction l with
  | nil => intro n; rfl
  | cons a t ih =>
    intro n
    simp only [scoreRowsFrom, List.map_cons]
    rw [ih]

theorem scoreRowsFrom_map_idx (df : List DRec) :
    ∀ (l : List DRec) (n : ℕ),
      (scoreRowsFrom df n l).map (fun q => q.idx) = List.range' n l.length := by
  intro l
  induction l with
  | nil => intro n; rfl
  | cons a t ih =>
    intro n
    simp only [scoreRowsFrom, List.map_cons, List.length_cons, List.range'_succ]
    rw [ih]

/-! ## Claim theorem: C1 -/

/-- C1: `computePriorityScore` scores every row with the fixed
0.40/0.25/0.20/0.15 convex combination of the four normalized drivers
(`priorityScore`), the score lies in `[0, 1]` whenever all four columns
have non-zero range over the subset (the normalized inputs being
well-defined), and the output is the input's rows sorted non-increasing
by score with ties in original input order. -/
theorem C1_computePriorityScore_ranked (df : List DRec) :
    (∀ q ∈ computePriorityScore df, q.score = priorityScore df q.row ∧ q.row ∈ df) ∧
      (∀ r ∈ df,
        colMin (fun x => x.ARI) df < colMax (fun x => x.ARI) df →
        colMin (fun x => x.BUR) df < colMax (fun x => x.BUR) df →
        colMin (fun x => x.BUD) df < colMax (fun x => x.BUD) df →
        colMin (fun x => x.AWF) df < colMax (fun x => x.AWF) df →
        0 ≤ priorityScore df r ∧ priorityScore df r ≤ 1) ∧
      ((computePriorityScore df).map (fun q => q.row)).Perm df ∧
      (computePriorityScore df).Perm (scoreRows df) ∧
      (scoreRows df).map (fun q => q.idx) = List.range' 0 df.length ∧
      (computePriorityScore df).Pairwise (fun a b => b.score ≤ a.score) ∧
      (computePriorityScore df).Pairwise
        (fun a b => a.score = b.score → a.idx ≤ b.idx) := by
  have hperm : (computePriorityScore df).Perm (scoreRows df) :=
    List.perm_insertionSort scoreOrder (scoreRows df)
  have hsorted : List.Pairwise scoreOrder (computePriorityScore df) :=
    List.sorted_insertionSort scoreOrder (scoreRows df)
  refine ⟨?_, ?_, ?_, hperm, scoreRowsFrom_map_idx df df 0, ?_, ?_⟩
  · intro q hq
    exact scoreRowsFrom_spec df df 0 q (hperm.mem_iff.mp hq)
  · intro r hr h1 h2 h3 h4
    exact priorityScore_mem_unit hr h1 h2 h3 h4
  · have h := hperm.map (fun q => q.row)
    rw [show (scoreRows df).map (fun q => q.row) = df from
      scoreRowsFrom_map_row df df 0] at h
    exact h
  · refine hsorted.imp ?_
    intro a b h
    rcases h with h | ⟨h, _⟩
    · exact le_of_lt h
    · exact le_of_eq h.symm
  · refine hsorted.imp ?_
    intro a b h heq
    rcases h with h | ⟨_, hi⟩
    · rw [heq] at h
      exact absurd h (lt_irrefl _)
    · exact hi

/-- The scorer on the concrete frame `demoD`: scores 0.6, 0.5, 0.4 in
input order, already descending. -/
theorem computePriorityScore_demoD :
    (computePriorityScore demoD).map (fun q => (q.idx, q.score)) =
      [(0, 3 / 5), (1, 1 / 2), (2, 2 / 5)] := by
  norm_num [computePriorityScore, scoreRows, scoreRowsFrom, priorityScore,
    normLowerWorse, normHigherWorse, colMin, colMax, demoD,
    List.insertionSort, List.orderedInsert, scoreOrder]

/-! ## Lemmas: the temporal engine -/

theorem mem_overKeys {β : Type} (g : String × String → List β)
    (ks : List (String × String)) (x : β) :
    x ∈ overKeys g ks ↔ ∃ k ∈ ks, x ∈ g k := by
  induction ks with
  | nil => simp [overKeys]
  | cons k t ih => simp [overKeys, List.mem_append, ih]

theorem timeline_key {rs : List TRec} {k : String × String} {r : TRec}
    (hr : r ∈ timeline rs k) : entityKey r = k := by
  have h1 := (List.perm_insertionSort dateLE _).mem_iff.mp hr
  exact of_decide_eq_true (List.mem_filter.mp h1).2

theorem timeline_perm_filter (rs : List TRec) (k : String × String) :
    (timeline rs k).Perm (rs.filter (fun r => decide (entityKey r = k))) :=
  List.perm_insertionSort dateLE _

theorem timeline_sorted (rs : List TRec) (k : String × String) :
    List.Pairwise dateLE (timeline rs k) :=
  List.sorted_insertionSort dateLE _

theorem withPrevFrom_cur {α : Type} (f : TRec → α) :
    ∀ (l : List TRec) (p : Option α) (x : TD α),
      x ∈ withPrevFrom f p l → x.cur ∈ l := by
  intro l
  induction l with
  | nil => intro p x hx; cases hx
  | cons a t ih =>
    intro p x hx
    rcases List.mem_cons.mp hx with h | h
    · subst h; exact List.mem_cons_self _ _
    · exact List.mem_cons_of_mem _ (ih _ x h)

theorem withPrevFrom_chain {α : Type} (f : TRec → α) :
    ∀ (l : List TRec) (p : Option α),
      List.Chain' (fun a b => b.prev = some (f a.cur)) (withPrevFrom f p l) := by
  intro l
  induction l with
  | nil => intro p; exact List.chain'_nil
  | cons a t ih =>
    intro p
    cases t with
    | nil => exact List.chain'_singleton _
    | cons b u =>
      rw [show withPrevFrom f p (a :: b :: u) =
        ⟨a, p⟩ :: withPrevFrom f (some (f a)) (b :: u) from rfl]
      refine List.chain'_cons'.mpr ⟨?_, ih (some (f a))⟩
      intro y hy
      rw [show withPrevFrom f (some (f a)) (b :: u) =
        ⟨b, some (f a)⟩ :: withPrevFrom f (some (f b)) u from rfl] at hy
      simp only [List.head?_cons, Option.mem_some_iff] at hy
      rw [← hy]

theorem withPrev_head {α : Type} (f : TRec → α) (tl : List TRec) :
    ∀ x, (withPrev f tl).head? = some x → x.prev = none := by
  cases tl with
  | nil => intro x hx; simp [withPrev, withPrevFrom] at hx
  | cons a t =>
    intro x hx
    simp only [withPrev, withPrevFrom, List.head?_cons, Option.some_inj] at hx
    rw [← hx]

theorem tdTimeline_shape (f : TRec → ℚ) (tl : List TRec) :
    ∀ y ∈ tdTimeline f tl,
      y.prev = none ∨ (∃ p, y.prev = some p) := by
  intro y _
  cases y.prev with
  | none => exact Or.inl rfl
  | some p => exact Or.inr ⟨p, rfl⟩

theorem tdTimeline_fields (f : TRec → ℚ) (tl : List TRec) :
    ∀ y ∈ tdTimeline f tl,
      y.delta = y.prev.map (fun p => f y.cur - p) ∧
      y.pctChange = y.prev.bind
        (fun p => if p = 0 then none else some ((f y.cur - p) / p)) := by
  intro y hy
  obtain ⟨x, _, rfl⟩ := List.mem_map.mp hy
  exact ⟨rfl, rfl⟩

theorem tdTimeline_cur_mem (f : TRec → ℚ) (tl : List TRec) :
    ∀ y ∈ tdTimeline f tl, y.cur ∈ tl := by
  intro y hy
  obtain ⟨x, hx, rfl⟩ := List.mem_map.mp hy
  exact withPrevFrom_cur f tl none x hx

theorem tdTimeline_chain (f : TRec → ℚ) (tl : List TRec) :
    List.Chain' (fun a b => b.prev = some (f a.cur)) (tdTimeline f tl) := by
  unfold tdTimeline
  rw [List.chain'_map]
  exact withPrevFrom_chain f tl none

theorem tdTimeline_head (f : TRec → ℚ) (tl : List TRec) :
    ∀ y, (tdTimeline f tl).head? = some y → y.prev = none ∧ y.pctChange = none := by
  intro y hy
  unfold tdTimeline at hy
  rw [List.head?_map] at hy
  cases hx : (withPrev f tl).head? with
  | none => rw [hx] at hy; cases hy
  | some x =>
    rw [hx] at hy
    simp only [Option.map_some', Option.some_inj] at hy
    have hp := withPrev_head f tl x hx
    rw [← hy]
    refine ⟨hp, ?_⟩
    show x.prev.bind _ = none
    rw [hp]
    rfl

theorem mem_computeTemporalDiff {rs : List TRec} {f : TRec → ℚ} {y : TDRow}
    (hy : y ∈ computeTemporalDiff rs f) :
    ∃ k, y ∈ tdTimeline f (timeline rs k) := by
  obtain ⟨k, _, h⟩ := (mem_overKeys _ _ _).mp hy
  exact ⟨k, h⟩

theorem ewFlag_iff (row : TDRow) :
    ewFlag row = true ↔ ∃ p, row.pctChange = some p ∧ p < -(15 / 100 : ℚ) := by
  unfold ewFlag
  cases h : row.pctChange with
  | none => simp
  | some p => simp [h]

theorem mem_detectEarlyWarning {rs : List TRec} {x : TDRow × Bool}
    (hx : x ∈ detectEarlyWarning rs) :
    x.2 = ewFlag x.1 ∧
      ∃ k, x.1 ∈ tdTimeline (fun r => r.ARI) (timeline rs k) := by
  obtain ⟨k, _, h⟩ := (mem_overKeys _ _ _).mp hx
  obtain ⟨row, hrow, rfl⟩ := List.mem_map.mp h
  exact ⟨rfl, k, hrow⟩

theorem rtFlag_iff (x : TD String) :
    rtFlag x = true ↔ x.prev = some "Medium" ∧ x.cur.Risk = "High" := by
  unfold rtFlag
  cases h : x.prev with
  | none => simp [h]
  | some p => simp [h]

theorem mem_detectRiskTransition {rs : List TRec} {x : TD String × Bool}
    (hx : x ∈ detectRiskTransition rs) :
    x.2 = rtFlag x.1 ∧
      ∃ k, x.1 ∈ withPrev (fun r => r.Risk) (timeline rs k) := by
  obtain ⟨k, _, h⟩ := (mem_overKeys _ _ _).mp hx
  obtain ⟨z, hz, rfl⟩ := List.mem_map.mp h
  exact ⟨rfl, k, hz⟩

theorem mem_forecastNext {rs : List TRec} {x : FRow}
    (hx : x ∈ forecastNext rs) :
    ∃ row, (∃ k, row ∈ tdTimeline (fun r => r.ARI) (timeline rs k)) ∧
      x = ⟨row, fcTrend row, row.cur.ARI + fcTrend row⟩ := by
  obtain ⟨k, _, h⟩ := (mem_overKeys _ _ _).mp hx
  obtain ⟨row, hrow, hxeq⟩ := List.mem_map.mp h
  exact ⟨row, ⟨k, hrow⟩, hxeq.symm⟩

/-! ## Claim theorems: C2, C3, C4, C5 -/

/-- C2: `detectEarlyWarning` flags a record iff its ARI percent change,
taken from the immediately preceding record of the same entity timeline
(the `Chain'` conjunct), is defined and strictly below −0.15; a percent
change of exactly −0.15 is not flagged, and the first record of every
entity timeline is never flagged. -/
theorem C2_detectEarlyWarning_strict_threshold (rs : List TRec) :
    (∀ x ∈ detectEarlyWarning rs,
        (x.2 = true ↔ ∃ p, x.1.pctChange = some p ∧ p < -(15 / 100 : ℚ))) ∧
      (∀ x ∈ detectEarlyWarning rs,
        x.1.pctChange = some (-(15 / 100 : ℚ)) → x.2 = false) ∧
      (∀ k x, (ewTimeline rs k).head? = some x → x.2 = false) ∧
      (∀ k, List.Chain' (fun a b => b.1.prev = some a.1.cur.ARI) (ewTimeline rs k)) ∧
      (∀ x ∈ detectEarlyWarning rs,
        x.1.pctChange = x.1.prev.bind
          (fun p => if p = 0 then none else some ((x.1.cur.ARI - p) / p))) := by
  refine ⟨?_, ?_, ?_, ?_, ?_⟩
  · intro x hx
    obtain ⟨hflag, _, _⟩ := mem_detectEarlyWarning hx
    rw [hflag]
    exact ewFlag_iff x.1
  · intro x hx hpc
    obtain ⟨hflag, _, _⟩ := mem_detectEarlyWarning hx
    rw [hflag]
    unfold ewFlag
    rw [hpc]
    rw [decide_eq_false_iff_not]
    exact lt_irrefl _
  · intro k x hx
    unfold ewTimeline at hx
    rw [List.head?_map] at hx
    cases hrow : (tdTimeline (fun r => r.ARI) (timeline rs k)).head? with
    | none => rw [hrow] at hx; cases hx
    | some row =>
      rw [hrow] at hx
      simp only [Option.map_some', Option.some_inj] at hx
      obtain ⟨_, hpc⟩ := tdTimeline_head (fun r => r.ARI) (timeline rs k) row hrow
      rw [← hx]
      show ewFlag row = false
      unfold ewFlag
      rw [hpc]
  · intro k
    unfold ewTimeline
    rw [List.chain'_map]
    exact tdTimeline_chain (fun r => r.ARI) (timeline rs k)
  · intro x hx
    obtain ⟨_, k, hrow⟩ := mem_detectEarlyWarning hx
    exact (tdTimeline_fields (fun r => r.ARI) (timeline rs k) x.1 hrow).2

/-- C3: `detectRiskTransition` flags a record iff the previous Risk
category within its entity timeline is exactly "Medium" and the current
is exactly "High"; the previous category always comes from the
immediately preceding record of the same (state, district) timeline
(`Chain'` plus the key conjunct), and a timeline's first record is
never flagged. -/
theorem C3_detectRiskTransition_only_medium_to_high (rs : List TRec) :
    (∀ x ∈ detectRiskTransition rs,
        (x.2 = true ↔ x.1.prev = some "Medium" ∧ x.1.cur.Risk = "High")) ∧
      (∀ k, List.Chain' (fun a b => b.1.prev = some a.1.cur.Risk) (rtTimeline rs k)) ∧
      (∀ k x, x ∈ rtTimeline rs k → entityKey x.1.cur = k) ∧
      (∀ k x, (rtTimeline rs k).head? = some x → x.2 = false) := by
  refine ⟨?_, ?_, ?_, ?_⟩
  · intro x hx
    obtain ⟨hflag, _, _⟩ := mem_detectRiskTransition hx
    rw [hflag]
    exact rtFlag_iff x.1
  · intro k
    unfold rtTimeline
    rw [List.chain'_map]
    exact withPrevFrom_chain (fun r => r.Risk) (timeline rs k) none
  · intro k x hx
    unfold rtTimeline at hx
    obtain ⟨z, hz, rfl⟩ := List.mem_map.mp hx
    exact timeline_key (withPrevFrom_cur (fun r => r.Risk) (timeline rs k) none z hz)
  · intro k x hx
    unfold rtTimeline at hx
    rw [List.head?_map] at hx
    cases hz : (withPrev (fun r => r.Risk) (timeline rs k)).head? with
    | none => rw [hz] at hx; cases hx
    | some z =>
      rw [hz] at hx
      simp only [Option.map_some', Option.some_inj] at hx
      have hp := withPrev_head (fun r => r.Risk) (timeline rs k) z hz
      rw [← hx]
      show rtFlag z = false
      unfold rtFlag
      rw [hp]

/-- C4: `forecastNext` gives every record trend = current − previous
ARI, trend 0 (not null) on the first record of a timeline, and
Forecast_ARI_Next = current + trend; on the two-record timeline with
ARI = [50, 40] this yields trend −10 and forecast 30 for the second
record. -/
theorem C4_forecastNext_last_delta (rs : List TRec) :
    (∀ x ∈ forecastNext rs, x.forecast = x.row.cur.ARI + x.trend) ∧
      (∀ x ∈ forecastNext rs, x.row.prev = none → x.trend = 0) ∧
      (∀ x ∈ forecastNext rs, ∀ p, x.row.prev = some p →
        x.trend = x.row.cur.ARI - p) ∧
      (forecastNext fcDemo).map (fun x => (x.trend, x.forecast)) =
        [(0, 50), (-10, 30)] := by
  refine ⟨?_, ?_, ?_, ?_⟩
  · intro x hx
    obtain ⟨row, _, rfl⟩ := mem_forecastNext hx
    rfl
  · intro x hx hp
    obtain ⟨row, _, rfl⟩ := mem_forecastNext hx
    show fcTrend row = 0
    unfold fcTrend
    rw [show row.prev = none from hp]
  · intro x hx p hp
    obtain ⟨row, _, rfl⟩ := mem_forecastNext hx
    show fcTrend row = row.cur.ARI - p
    unfold fcTrend
    rw [show row.prev = some p from hp]
  · norm_num [forecastNext, fcTimeline, tdTimeline, withPrev, withPrevFrom,
      mkTDRow, fcTrend, timeline, groupKeys, dedupKeys, overKeys, fcDemo,
      entityKey, List.insertionSort, List.orderedInsert, dateLE]

/-- C5: within every entity timeline the chronologically first record
carries `prev = none` (no prior period, not zero) and a `none` percent
change, and whenever the previous value is 0 the percent change is the
defined `none` sentinel; a `none` previous value also gives `none`
difference and percent change, never an arbitrary number. -/
theorem C5_computeTemporalDiff_null_policy (f : TRec → ℚ) (rs : List TRec) :
    (∀ k y, (tdTimeline f (timeline rs k)).head? = some y →
        y.prev = none ∧ y.pctChange = none) ∧
      (∀ y ∈ computeTemporalDiff rs f, y.prev = some 0 → y.pctChange = none) ∧
      (∀ y ∈ computeTemporalDiff rs f, y.prev = none →
        y.delta = none ∧ y.pctChange = none) := by
  refine ⟨?_, ?_, ?_⟩
  · intro k y hy
    exact tdTimeline_head f (timeline rs k) y hy
  · intro y hy hp
    obtain ⟨k, hk⟩ := mem_computeTemporalDiff hy
    obtain ⟨_, hpc⟩ := tdTimeline_fields f (timeline rs k) y hk
    rw [hpc, hp]
    simp
  · intro y hy hp
    obtain ⟨k, hk⟩ := mem_computeTemporalDiff hy
    obtain ⟨hdelta, hpc⟩ := tdTimeline_fields f (timeline rs k) y hk
    rw [hdelta, hpc, hp]
    exact ⟨rfl, rfl⟩

/-- The early-warning detector on the spec §8 timeline with
ARI = [100, 100, 60]: only the third record is flagged (percent change
−0.4). -/
theorem detectEarlyWarning_ewDemo :
    (detectEarlyWarning ewDemo).map (fun x => x.2) = [false, false, true] := by
  norm_num [detectEarlyWarning, ewTimeline, ewFlag, tdTimeline, withPrev,
    withPrevFrom, mkTDRow, timeline, groupKeys, dedupKeys, overKeys, ewDemo,
    entityKey, List.insertionSort, List.orderedInsert, dateLE]

end ARIDash
